import Mathlib

/-!
# Verification of the WhatsApp chat analyzer core

A shallow embedding of the analyzer's data model (`models/message.py`), the
filters (`analyzer/filters.py`), the chunker (`analyzer/chunker.py`), the
text parser (`parsers/text_parser.py`) and the format dispatch
(`analyzer/core.py`), with theorems about the properties the specification
states.  Python strings are modelled as Lean `String`/`List Char`;
`datetime` as a six-field record ordered lexicographically; `None`-returning
functions as `Option`; the `ValueError` raised by `ChatAnalyzer.parse` as
`Except.error`.  The regular expressions of `text_parser.py` are embedded as
executable prefix matchers that follow the structure of each pattern
(`\d` is modelled as an ASCII digit, `\s` as Python's whitespace set).
-/

/-- Python's whitespace set: the characters `str.isspace` accepts (and the
`\s` class of `re` on `str` patterns), restricted to the Basic Multilingual
Plane. -/
def isPySpace (c : Char) : Bool :=
  c == ' ' || c == '\t' || c == '\n' || c == '\u000B' || c == '\u000C' ||
  c == '\r' || c == '\u001C' || c == '\u001D' || c == '\u001E' ||
  c == '\u001F' || c == '\u0085' || c == '\u00A0' || c == '\u1680' ||
  (decide ('\u2000' ≤ c) && decide (c ≤ '\u200A')) ||
  c == '\u2028' || c == '\u2029' || c == '\u202F' || c == '\u205F' ||
  c == '\u3000'

/-- Python `str.strip()` on a list of characters: drop leading and trailing
whitespace. -/
def stripChars (l : List Char) : List Char :=
  ((l.dropWhile isPySpace).reverse.dropWhile isPySpace).reverse

/-- Python `str.strip()`. -/
def pyStrip (s : String) : String := String.mk (stripChars s.toList)

/-- Python `str.lower()`, modelled for the ASCII range (`Char.toLower`
lowers `A`–`Z`). -/
def lowerStr (s : String) : String := String.mk (s.toList.map Char.toLower)

/-- A timezone-naive `datetime.datetime` at second precision (the parser
never produces microseconds). -/
structure DateTime where
  year : Nat
  month : Nat
  day : Nat
  hour : Nat
  minute : Nat
  second : Nat
  deriving DecidableEq, Repr

/-- Python `datetime <` : lexicographic on
(year, month, day, hour, minute, second). -/
def DateTime.ltB (a b : DateTime) : Bool :=
  Nat.blt a.year b.year || (a.year == b.year &&
  (Nat.blt a.month b.month || (a.month == b.month &&
  (Nat.blt a.day b.day || (a.day == b.day &&
  (Nat.blt a.hour b.hour || (a.hour == b.hour &&
  (Nat.blt a.minute b.minute || (a.minute == b.minute &&
  Nat.blt a.second b.second)))))))))

/-- Python `datetime <=` : strictly-less or equal. -/
def DateTime.leB (a b : DateTime) : Bool := DateTime.ltB a b || a == b

theorem DateTime.leB_refl (a : DateTime) : DateTime.leB a a = true := by
  simp [DateTime.leB]

/-- `datetime` comparison is total: `a <= b` is exactly `not (b < a)`. -/
theorem DateTime.leB_eq_not_ltB (a b : DateTime) :
    DateTime.leB a b = !DateTime.ltB b a := by
  rcases a with ⟨y₁, mo₁, d₁, h₁, mi₁, s₁⟩
  rcases b with ⟨y₂, mo₂, d₂, h₂, mi₂, s₂⟩
  have key : ∀ x y : Bool, (x = true ↔ y = true) → x = y := by decide
  apply key
  simp only [DateTime.leB, DateTime.ltB, Bool.or_eq_true, Bool.and_eq_true,
    Nat.blt_eq, beq_iff_eq, DateTime.mk.injEq, Bool.not_eq_true',
    Bool.or_eq_false_iff, Bool.and_eq_false_iff, ← Bool.not_eq_true,
    not_or, not_and, Nat.not_lt]
  omega

/-- `ChatMessage` of `models/message.py`. -/
structure ChatMessage where
  timestamp : DateTime
  sender : String
  content : String
  is_system : Bool := false
  is_media : Bool := false
  deriving DecidableEq, Repr

/-- `toString n` left-padded with zeros to width `w` (`%02d`-style). -/
def padZeros (w : Nat) (n : Nat) : String :=
  let s := toString n
  String.mk (List.replicate (w - s.length) '0') ++ s

/-- `ChatMessage.__str__`: the canonical one-line serialization
`[YYYY-MM-DD HH:MM] content` for system messages and
`[YYYY-MM-DD HH:MM] Sender: content` otherwise. -/
def ChatMessage.str (m : ChatMessage) : String :=
  "[" ++ padZeros 4 m.timestamp.year ++ "-" ++ padZeros 2 m.timestamp.month ++
  "-" ++ padZeros 2 m.timestamp.day ++ " " ++ padZeros 2 m.timestamp.hour ++
  ":" ++ padZeros 2 m.timestamp.minute ++ "] " ++
  (if m.is_system then m.content else m.sender ++ ": " ++ m.content)

/-- `Conversation` of `models/message.py`: an ordered list of messages. -/
structure Conversation where
  messages : List ChatMessage := []
  deriving DecidableEq, Repr

/-- Python `"\n".join`. -/
def joinNewline : List String → String
  | [] => ""
  | [s] => s
  | s :: t :: r => s ++ "\n" ++ joinNewline (t :: r)

/-- `Conversation.to_text`: serialize all messages, one per line. -/
def Conversation.to_text (c : Conversation) : String :=
  joinNewline (c.messages.map ChatMessage.str)

/-- `Conversation.filter_by_participant`: keep messages whose sender equals
the participant case-insensitively, plus all system messages. -/
def Conversation.filter_by_participant (c : Conversation) (participant : String) :
    Conversation :=
  ⟨c.messages.filter fun m =>
    lowerStr m.sender == lowerStr participant || m.is_system⟩

/-- `Conversation.filter_by_date_range`: skip a message when a `start` bound
is given and the timestamp is before it, or when an `end` bound (here
`stop`, `end` being reserved) is given and the timestamp is after it. -/
def Conversation.filter_by_date_range (c : Conversation)
    (start stop : Option DateTime) : Conversation :=
  ⟨c.messages.filter fun m =>
    !(match start with | some s => DateTime.ltB m.timestamp s | none => false) &&
    !(match stop with | some e => DateTime.ltB e m.timestamp | none => false)⟩

/-- `analyzer/chunker.py` `DEFAULT_MAX_CHARS`. -/
def DEFAULT_MAX_CHARS : Nat := 12000

/-- The loop body of `ConversationChunker.chunk`: `current` is the list of
messages of the chunk being built and `currentChars` the accumulated
character count (one separator character counted per message). -/
def chunkLoop (maxChars : Nat) :
    List ChatMessage → List ChatMessage → Nat → List Conversation
  | [], current, _ => if current.isEmpty then [] else [⟨current⟩]
  | message :: rest, current, currentChars =>
    let msgLen := (ChatMessage.str message).length
    if currentChars + msgLen > maxChars ∧ current ≠ [] then
      ⟨current⟩ :: chunkLoop maxChars rest [message] (msgLen + 1)
    else
      chunkLoop maxChars rest (current ++ [message]) (currentChars + msgLen + 1)

/-- `ConversationChunker.chunk`: split a conversation at message boundaries
into chunks bounded by `maxChars` serialized characters. -/
def ConversationChunker.chunk (maxChars : Nat) (conversation : Conversation) :
    List Conversation :=
  if conversation.messages.isEmpty then []
  else chunkLoop maxChars conversation.messages [] 0

/-- `ConversationChunker.needs_chunking`. -/
def ConversationChunker.needs_chunking (maxChars : Nat) (c : Conversation) : Bool :=
  decide (c.to_text.length > maxChars)

/-- `analyzer/filters.py` `apply_filters`: date filter first (when either
bound is set), then the participant filter — guarded by Python truthiness,
so `None` and the empty string both skip the participant filter. -/
def apply_filters (conversation : Conversation) (participant : Option String)
    (start_date end_date : Option DateTime) : Conversation :=
  let result :=
    if start_date.isSome || end_date.isSome then
      conversation.filter_by_date_range start_date end_date
    else conversation
  match participant with
  | none => result
  | some p => if p = "" then result else result.filter_by_participant p

/-- Serialized length of one message. -/
def msgLen (m : ChatMessage) : Nat := (ChatMessage.str m).length

/-- Total serialized length of a message list, separators not counted. -/
def sumLen (l : List ChatMessage) : Nat := (l.map msgLen).sum

theorem joinNewline_length (l : List String) (h : l ≠ []) :
    (joinNewline l).length = (l.map String.length).sum + (l.length - 1) := by
  induction l with
  | nil => exact absurd rfl h
  | cons s rest ih =>
    cases rest with
    | nil => simp [joinNewline]
    | cons t r =>
      have hr := ih (by simp)
      have hn : ("\n" : String).length = 1 := rfl
      simp only [joinNewline, String.length_append, hn, List.map_cons,
        List.sum_cons, List.length_cons] at hr ⊢
      omega

theorem Conversation.to_text_length (c : Conversation) (h : c.messages ≠ []) :
    c.to_text.length = sumLen c.messages + (c.messages.length - 1) := by
  unfold Conversation.to_text
  rw [joinNewline_length _ (by simpa using h)]
  simp only [List.length_map, List.map_map]
  rfl

theorem chunkLoop_join (maxChars : Nat) :
    ∀ (ms cur : List ChatMessage) (chars : Nat),
      ((chunkLoop maxChars ms cur chars).map Conversation.messages).flatten
        = cur ++ ms := by
  intro ms
  induction ms with
  | nil =>
    intro cur chars
    by_cases hc : cur.isEmpty <;> simp_all [chunkLoop, List.isEmpty_iff]
  | cons m rest ih =>
    intro cur chars
    rw [chunkLoop]
    split
    · simp [ih]
    · simp [ih]

theorem chunkLoop_ne_nil (maxChars : Nat) :
    ∀ (ms cur : List ChatMessage) (chars : Nat),
      ∀ ch ∈ chunkLoop maxChars ms cur chars, ch.messages ≠ [] := by
  intro ms
  induction ms with
  | nil =>
    intro cur chars ch hch
    by_cases hc : cur.isEmpty <;> simp_all [chunkLoop, List.isEmpty_iff]
  | cons m rest ih =>
    intro cur chars ch hch
    rw [chunkLoop] at hch
    split at hch
    · rcases List.mem_cons.mp hch with h | h
      · subst h
        rename_i hcond
        exact hcond.2
      · exact ih _ _ ch h
    · exact ih _ _ ch hch

theorem chunkLoop_bound (maxChars : Nat) :
    ∀ (ms cur : List ChatMessage) (chars : Nat),
      chars = sumLen cur + cur.length →
      (2 ≤ cur.length → sumLen cur + cur.length ≤ maxChars + 1) →
      ∀ ch ∈ chunkLoop maxChars ms cur chars, 2 ≤ ch.messages.length →
        sumLen ch.messages + ch.messages.length ≤ maxChars + 1 := by
  intro ms
  induction ms with
  | nil =>
    intro cur chars hchars hbound ch hch hlen
    by_cases hc : cur.isEmpty <;> simp_all [chunkLoop, List.isEmpty_iff]
  | cons m rest ih =>
    intro cur chars hchars hbound ch hch hlen
    rw [chunkLoop] at hch
    split at hch
    · rcases List.mem_cons.mp hch with h | h
      · subst h
        exact hbound hlen
      · refine ih [m] (msgLen m + 1) (by simp [sumLen]) (by intro h2; simp at h2) ch h hlen
    · rename_i hcond
      refine ih (cur ++ [m]) (chars + msgLen m + 1) ?_ ?_ ch hch hlen
      · simp [sumLen, hchars]
        omega
      · intro h2
        have hne : cur ≠ [] := by
          intro hnil
          subst hnil
          simp at h2
        have hle : ¬ (chars + msgLen m > maxChars) := fun hgt => hcond ⟨hgt, hne⟩
        simp [sumLen] at hchars ⊢
        omega

/-- C1: for every Conversation and `maxChars >= 1`, `chunk` is a lossless
partition: concatenating the chunks' message lists reproduces the input's
message list (so the chunk message counts sum to the input count), no chunk
is empty, and a conversation with zero messages yields the empty list. -/
theorem chunk_roundtrip (c : Conversation) (maxChars : Nat) (hmax : 1 ≤ maxChars) :
    ((ConversationChunker.chunk maxChars c).map Conversation.messages).flatten
        = c.messages ∧
    ((ConversationChunker.chunk maxChars c).map fun ch => ch.messages.length).sum
        = c.messages.length ∧
    (∀ ch ∈ ConversationChunker.chunk maxChars c, ch.messages ≠ []) ∧
    (c.messages = [] → ConversationChunker.chunk maxChars c = []) := by
  unfold ConversationChunker.chunk
  by_cases h : c.messages.isEmpty
  · rw [List.isEmpty_iff] at h
    simp [h]
  · rw [List.isEmpty_iff] at h
    rw [if_neg (by simpa [List.isEmpty_iff] using h)]
    have hjoin := chunkLoop_join maxChars c.messages [] 0
    simp only [List.nil_append] at hjoin
    refine ⟨hjoin, ?_, ?_, fun hnil => absurd hnil h⟩
    · have := congrArg List.length hjoin
      simpa [List.length_flatten, List.map_map, Function.comp] using this
    · exact chunkLoop_ne_nil maxChars c.messages [] 0

/-- Witness for C1 at a concrete conversation and bound. -/
theorem chunk_roundtrip_witness :
    ((ConversationChunker.chunk 30 (Conversation.mk
        [⟨⟨2024, 1, 12, 9, 0, 0⟩, "Alice", "Hi", false, false⟩,
         ⟨⟨2024, 1, 12, 9, 1, 0⟩, "Bob", "Yo", false, false⟩])).map
        Conversation.messages).flatten
      = [⟨⟨2024, 1, 12, 9, 0, 0⟩, "Alice", "Hi", false, false⟩,
         ⟨⟨2024, 1, 12, 9, 1, 0⟩, "Bob", "Yo", false, false⟩] ∧
    ((ConversationChunker.chunk 30 (Conversation.mk
        [⟨⟨2024, 1, 12, 9, 0, 0⟩, "Alice", "Hi", false, false⟩,
         ⟨⟨2024, 1, 12, 9, 1, 0⟩, "Bob", "Yo", false, false⟩])).map
        fun ch => ch.messages.length).sum = 2 ∧
    (∀ ch ∈ ConversationChunker.chunk 30 (Conversation.mk
        [⟨⟨2024, 1, 12, 9, 0, 0⟩, "Alice", "Hi", false, false⟩,
         ⟨⟨2024, 1, 12, 9, 1, 0⟩, "Bob", "Yo", false, false⟩]), ch.messages ≠ []) ∧
    ([⟨⟨2024, 1, 12, 9, 0, 0⟩, "Alice", "Hi", false, false⟩,
      ⟨⟨2024, 1, 12, 9, 1, 0⟩, "Bob", "Yo", false, false⟩] = ([] : List ChatMessage) →
      ConversationChunker.chunk 30 (Conversation.mk
        [⟨⟨2024, 1, 12, 9, 0, 0⟩, "Alice", "Hi", false, false⟩,
         ⟨⟨2024, 1, 12, 9, 1, 0⟩, "Bob", "Yo", false, false⟩]) = []) :=
  chunk_roundtrip (Conversation.mk
        [⟨⟨2024, 1, 12, 9, 0, 0⟩, "Alice", "Hi", false, false⟩,
         ⟨⟨2024, 1, 12, 9, 1, 0⟩, "Bob", "Yo", false, false⟩]) 30 (by decide)

/-- C2: for `maxChars >= 1`, every chunk with two or more messages
serializes within `maxChars` characters, and a chunk containing a message
longer than `maxChars` consists of that single message (oversized messages
are never split and sit alone in their chunk). -/
theorem chunk_size_bound (c : Conversation) (maxChars : Nat) (hmax : 1 ≤ maxChars) :
    (∀ ch ∈ ConversationChunker.chunk maxChars c, 2 ≤ ch.messages.length →
      ch.to_text.length ≤ maxChars) ∧
    (∀ ch ∈ ConversationChunker.chunk maxChars c, ∀ m ∈ ch.messages,
      maxChars < msgLen m → ch.messages = [m]) := by
  have hboundAll : ∀ ch ∈ ConversationChunker.chunk maxChars c,
      2 ≤ ch.messages.length → sumLen ch.messages + ch.messages.length ≤ maxChars + 1 := by
    intro ch hch
    unfold ConversationChunker.chunk at hch
    rcases hmsg : c.messages with _ | ⟨x, xs⟩
    · rw [hmsg] at hch
      simp at hch
    · rw [hmsg] at hch
      rw [if_neg (by simp)] at hch
      exact chunkLoop_bound maxChars (x :: xs) [] 0 (by simp [sumLen])
        (by intro h2; simp at h2) ch hch
  have hne : ∀ ch ∈ ConversationChunker.chunk maxChars c, ch.messages ≠ [] := by
    intro ch hch
    unfold ConversationChunker.chunk at hch
    rcases hmsg : c.messages with _ | ⟨x, xs⟩
    · rw [hmsg] at hch
      simp at hch
    · rw [hmsg] at hch
      rw [if_neg (by simp)] at hch
      exact chunkLoop_ne_nil maxChars (x :: xs) [] 0 ch hch
  constructor
  · intro ch hch hlen
    have hb := hboundAll ch hch hlen
    have ht := Conversation.to_text_length ch (hne ch hch)
    omega
  · intro ch hch m hm hover
    by_cases hlen : 2 ≤ ch.messages.length
    · exfalso
      have hb := hboundAll ch hch hlen
      have hmem : msgLen m ∈ ch.messages.map msgLen := List.mem_map_of_mem msgLen hm
      have hle : msgLen m ≤ sumLen ch.messages :=
        List.single_le_sum (fun x _ => Nat.zero_le x) _ hmem
      omega
    · have h1 : ch.messages.length = 1 := by
        have hpos : 0 < ch.messages.length := List.length_pos.mpr (hne ch hch)
        omega
      obtain ⟨a, ha⟩ := List.length_eq_one.mp h1
      rw [ha] at hm
      simp at hm
      rw [ha, hm]

/-- Witness for C2 at a concrete conversation and bound. -/
theorem chunk_size_bound_witness :
    (∀ ch ∈ ConversationChunker.chunk 30 (Conversation.mk
        [⟨⟨2024, 1, 12, 9, 0, 0⟩, "Alice", "Hi", false, false⟩,
         ⟨⟨2024, 1, 12, 9, 1, 0⟩, "Bob", "Yo", false, false⟩]),
      2 ≤ ch.messages.length → ch.to_text.length ≤ 30) ∧
    (∀ ch ∈ ConversationChunker.chunk 30 (Conversation.mk
        [⟨⟨2024, 1, 12, 9, 0, 0⟩, "Alice", "Hi", false, false⟩,
         ⟨⟨2024, 1, 12, 9, 1, 0⟩, "Bob", "Yo", false, false⟩]),
      ∀ m ∈ ch.messages, 30 < msgLen m → ch.messages = [m]) :=
  chunk_size_bound (Conversation.mk
        [⟨⟨2024, 1, 12, 9, 0, 0⟩, "Alice", "Hi", false, false⟩,
         ⟨⟨2024, 1, 12, 9, 1, 0⟩, "Bob", "Yo", false, false⟩]) 30 (by decide)

/-- C7: `filter_by_participant` keeps exactly the messages whose sender
equals the participant case-insensitively plus every system message, in the
original order (the result is a sublist of the input, which is itself left
unchanged — the operation is pure and returns a fresh `Conversation`). -/
theorem filter_by_participant_spec (c : Conversation) (p : String) :
    List.Sublist (c.filter_by_participant p).messages c.messages ∧
    (∀ m, m ∈ (c.filter_by_participant p).messages ↔
      m ∈ c.messages ∧ (lowerStr m.sender = lowerStr p ∨ m.is_system = true)) := by
  constructor
  · exact List.filter_sublist _
  · intro m
    simp [Conversation.filter_by_participant, List.mem_filter]

/-- C8: `filter_by_date_range` keeps exactly the messages inside the given
bounds, each bound constraining only when present, inclusively (a message
whose timestamp equals a bound is retained), in the original order. -/
theorem filter_by_date_range_spec (c : Conversation) (sd ed : Option DateTime) :
    List.Sublist (c.filter_by_date_range sd ed).messages c.messages ∧
    (∀ m, m ∈ (c.filter_by_date_range sd ed).messages ↔
      m ∈ c.messages ∧
      (∀ s, sd = some s → DateTime.leB s m.timestamp = true) ∧
      (∀ e, ed = some e → DateTime.leB m.timestamp e = true)) ∧
    (∀ m ∈ c.messages, (sd = some m.timestamp ∨ sd = none) →
      (ed = some m.timestamp ∨ ed = none) →
      m ∈ (c.filter_by_date_range sd ed).messages) := by
  have hiff : ∀ m, m ∈ (c.filter_by_date_range sd ed).messages ↔
      m ∈ c.messages ∧
      (∀ s, sd = some s → DateTime.leB s m.timestamp = true) ∧
      (∀ e, ed = some e → DateTime.leB m.timestamp e = true) := by
    intro m
    rcases sd with _ | s <;> rcases ed with _ | e <;>
      simp [Conversation.filter_by_date_range, List.mem_filter,
        DateTime.leB_eq_not_ltB]
  refine ⟨List.filter_sublist _, hiff, ?_⟩
  intro m hm h1 h2
  refine (hiff m).mpr ⟨hm, ?_, ?_⟩
  · intro s hs
    rcases h1 with h1 | h1
    · rw [h1] at hs
      cases hs
      exact DateTime.leB_refl m.timestamp
    · rw [h1] at hs
      cases hs
  · intro e he
    rcases h2 with h2 | h2
    · rw [h2] at he
      cases he
      exact DateTime.leB_refl m.timestamp
    · rw [h2] at he
      cases he

theorem lowerStr_eq_empty_iff (s : String) : lowerStr s = "" ↔ s = "" := by
  rcases s with ⟨l⟩
  constructor
  · intro h
    have hdata : List.map Char.toLower l = [] := congrArg String.data h
    have : l = [] := List.map_eq_nil_iff.mp hdata
    rw [this]
  · intro h
    rw [h]
    rfl

/-- C10: `apply_filters` with the empty-string participant is identical to
passing no participant at all (Python truthiness skips the filter), while
calling `filter_by_participant` directly with the empty string keeps only
messages with an empty sender plus system messages — and there is a
conversation on which the two disagree. -/
theorem apply_filters_empty_participant (c : Conversation) (sd ed : Option DateTime) :
    apply_filters c (some "") sd ed = apply_filters c none sd ed ∧
    apply_filters c (some "") sd ed = c.filter_by_date_range sd ed ∧
    (∀ m, m ∈ (c.filter_by_participant "").messages ↔
      m ∈ c.messages ∧ (m.sender = "" ∨ m.is_system = true)) ∧
    (∃ c2 : Conversation,
      c2.filter_by_participant "" ≠ apply_filters c2 (some "") none none) := by
  refine ⟨rfl, ?_, ?_, ?_⟩
  · unfold apply_filters
    rcases sd with _ | s <;> rcases ed with _ | e <;> simp
    cases c
    simp [Conversation.filter_by_date_range]
  · intro m
    simp [Conversation.filter_by_participant, List.mem_filter,
      lowerStr_eq_empty_iff]
    intro _
    constructor
    · rintro (h | h)
      · exact Or.inl ((lowerStr_eq_empty_iff m.sender).mp h)
      · exact Or.inr h
    · rintro (h | h)
      · exact Or.inl (by rw [h])
      · exact Or.inr h
  · refine ⟨⟨[⟨⟨2024, 1, 12, 9, 0, 0⟩, "Alice", "Hi", false, false⟩]⟩, ?_⟩
    decide

/-! ## The text parser (`parsers/text_parser.py`)

The four `_PATTERNS` regexes and the strptime formats of `_DATE_FORMATS`
are embedded as executable prefix matchers over `List Char`.  Greedy
quantifiers are modelled by maximal munch: in every pattern the character
that can follow a quantified digit group is never a digit (and the
character following an optional group never belongs to the group's first
character class), so maximal munch coincides with the backtracking
semantics of `re`. -/

/-- The invisible characters of `_UNICODE_JUNK`
(LTR/RTL marks, zero-width characters, BOM). -/
def junkChars : List Char :=
  ['\u200E', '\u200F', '\u202A', '\u202B', '\u202C', '\u200B', '\u200D', '\uFEFF']

def isJunkChar (c : Char) : Bool := junkChars.contains c

/-- `_UNICODE_JUNK.sub("", ...)`. -/
def removeJunk (l : List Char) : List Char := l.filter fun c => !isJunkChar c

/-- `WhatsAppTextParser._clean_line`: strip invisible characters, then trim
whitespace. -/
def cleanLine (line : String) : List Char := stripChars (removeJunk line.toList)

/-- `\d{1,2}`: one or two ASCII digits, greedy. -/
def matchD12 : List Char → Option (List Char × List Char)
  | c1 :: c2 :: r =>
    if c1.isDigit then
      if c2.isDigit then some ([c1, c2], r) else some ([c1], c2 :: r)
    else none
  | [c1] => if c1.isDigit then some ([c1], []) else none
  | [] => none

/-- `\d{2}`: exactly two digits. -/
def matchD2 : List Char → Option (List Char × List Char)
  | c1 :: c2 :: r => if c1.isDigit && c2.isDigit then some ([c1, c2], r) else none
  | _ => none

/-- `\d{2,4}`: two to four digits, greedy. -/
def matchD24 (l : List Char) : Option (List Char × List Char) :=
  let ds := (l.take 4).takeWhile Char.isDigit
  if 2 ≤ ds.length then some (ds, l.drop ds.length) else none

/-- `\s+`, greedy; yields the text after the whitespace run. -/
def matchWs1 (l : List Char) : Option (List Char) :=
  if (l.takeWhile isPySpace).isEmpty then none
  else some (l.dropWhile isPySpace)

def isAP (c : Char) : Bool := c == 'A' || c == 'P' || c == 'a' || c == 'p'

def isMchar (c : Char) : Bool := c == 'M' || c == 'm'

/-- `[-–—]`: hyphen, en dash or em dash. -/
def isDash (c : Char) : Bool := c == '-' || c == '–' || c == '—'

/-- `\d{1,2}:\d{2}(?::\d{2})?`: the time core shared by all patterns. -/
def matchTimeCore (l : List Char) : Option (List Char × List Char) :=
  match matchD12 l with
  | none => none
  | some (h, r1) =>
    match r1 with
    | ':' :: r2 =>
      match matchD2 r2 with
      | none => none
      | some (mi, r3) =>
        match r3 with
        | ':' :: r4 =>
          match matchD2 r4 with
          | some (se, r5) => some (h ++ ':' :: mi ++ ':' :: se, r5)
          | none => some (h ++ ':' :: mi, ':' :: r4)
        | _ => some (h ++ ':' :: mi, r3)
    | _ => none

/-- `(?:\s*[APap][Mm])?` of the bracketed patterns: optional, both letters
required; always succeeds, consuming nothing on a failed attempt. -/
def matchAmPmOpt (l : List Char) : List Char × List Char :=
  let ws := l.takeWhile isPySpace
  match l.dropWhile isPySpace with
  | a :: m :: r => if isAP a && isMchar m then (ws ++ [a, m], r) else ([], l)
  | _ => ([], l)

/-- `\s*[APap][Mm]?` of pattern 3: AM/PM letter required, `M` optional. -/
def matchAmPmP3 (l : List Char) : Option (List Char × List Char) :=
  let ws := l.takeWhile isPySpace
  match l.dropWhile isPySpace with
  | a :: r =>
    if isAP a then
      match r with
      | m :: r2 =>
        if isMchar m then some (ws ++ [a, m], r2) else some (ws ++ [a], m :: r2)
      | [] => some (ws ++ [a], [])
    else none
  | [] => none

/-- `\d{1,2}/\d{1,2}/\d{2,4}`: the date core shared by all patterns. -/
def matchDateCore (l : List Char) : Option (List Char × List Char) :=
  match matchD12 l with
  | none => none
  | some (d1, r1) =>
    match r1 with
    | '/' :: r2 =>
      match matchD12 r2 with
      | none => none
      | some (d2, r3) =>
        match r3 with
        | '/' :: r4 =>
          match matchD24 r4 with
          | none => none
          | some (y, r5) => some (d1 ++ '/' :: d2 ++ '/' :: y, r5)
        | _ => none
    | _ => none

/-- Pattern 1 of `_PATTERNS` (`_TIME_FIRST_PATTERN`):
`^\[(\d{1,2}:\d{2}(?::\d{2})?(?:\s*[APap][Mm])?),\s+(\d{1,2}/\d{1,2}/\d{2,4})\]\s+`;
yields (group 1, group 2, text after the match). -/
def pat1 (l : List Char) : Option (List Char × List Char × List Char) :=
  match l with
  | '[' :: r0 =>
    match matchTimeCore r0 with
    | none => none
    | some (t, r1) =>
      match matchAmPmOpt r1 with
      | (ap, r2) =>
        match r2 with
        | ',' :: r3 =>
          match matchWs1 r3 with
          | none => none
          | some r4 =>
            match matchDateCore r4 with
            | none => none
            | some (d, r5) =>
              match r5 with
              | ']' :: r6 =>
                match matchWs1 r6 with
                | none => none
                | some r7 => some (t ++ ap, d, r7)
              | _ => none
        | _ => none
  | _ => none

/-- Pattern 2 of `_PATTERNS`:
`^\[(\d{1,2}/\d{1,2}/\d{2,4}),\s+(\d{1,2}:\d{2}(?::\d{2})?(?:\s*[APap][Mm])?)\]\s+`. -/
def pat2 (l : List Char) : Option (List Char × List Char × List Char) :=
  match l with
  | '[' :: r0 =>
    match matchDateCore r0 with
    | none => none
    | some (d, r1) =>
      match r1 with
      | ',' :: r2 =>
        match matchWs1 r2 with
        | none => none
        | some r3 =>
          match matchTimeCore r3 with
          | none => none
          | some (t, r4) =>
            match matchAmPmOpt r4 with
            | (ap, r5) =>
              match r5 with
              | ']' :: r6 =>
                match matchWs1 r6 with
                | none => none
                | some r7 => some (d, t ++ ap, r7)
              | _ => none
      | _ => none
  | _ => none

/-- Pattern 3 of `_PATTERNS`:
`^(\d{1,2}/\d{1,2}/\d{2,4}),\s+(\d{1,2}:\d{2}(?::\d{2})?\s*[APap][Mm]?)\s+[-–—]\s+`. -/
def pat3 (l : List Char) : Option (List Char × List Char × List Char) :=
  match matchDateCore l with
  | none => none
  | some (d, r1) =>
    match r1 with
    | ',' :: r2 =>
      match matchWs1 r2 with
      | none => none
      | some r3 =>
        match matchTimeCore r3 with
        | none => none
        | some (t, r4) =>
          match matchAmPmP3 r4 with
          | none => none
          | some (ap, r5) =>
            match matchWs1 r5 with
            | none => none
            | some r6 =>
              match r6 with
              | c :: r7 =>
                if isDash c then
                  match matchWs1 r7 with
                  | none => none
                  | some r8 => some (d, t ++ ap, r8)
                else none
              | [] => none
    | _ => none

/-- Pattern 4 of `_PATTERNS`:
`^(\d{1,2}/\d{1,2}/\d{2,4}),\s+(\d{1,2}:\d{2}(?::\d{2})?)\s+[-–—]\s+`. -/
def pat4 (l : List Char) : Option (List Char × List Char × List Char) :=
  match matchDateCore l with
  | none => none
  | some (d, r1) =>
    match r1 with
    | ',' :: r2 =>
      match matchWs1 r2 with
      | none => none
      | some r3 =>
        match matchTimeCore r3 with
        | none => none
        | some (t, r4) =>
          match matchWs1 r4 with
          | none => none
          | some r5 =>
            match r5 with
            | c :: r6 =>
              if isDash c then
                match matchWs1 r6 with
                | none => none
                | some r7 => some (d, t, r7)
              else none
            | [] => none
    | _ => none

/-- The two captured groups, the text after the match and whether the
matching pattern was the time-first one. -/
structure MatchRes where
  g1 : List Char
  g2 : List Char
  rest : List Char
  timeFirst : Bool
  deriving DecidableEq, Repr

/-- The ordered pattern loop of `_try_parse_line`: first match wins. -/
def matchFirst (l : List Char) : Option MatchRes :=
  match pat1 l with
  | some (a, b, r) => some ⟨a, b, r, true⟩
  | none =>
    match pat2 l with
    | some (a, b, r) => some ⟨a, b, r, false⟩
    | none =>
      match pat3 l with
      | some (a, b, r) => some ⟨a, b, r, false⟩
      | none =>
        match pat4 l with
        | some (a, b, r) => some ⟨a, b, r, false⟩
        | none => none

/-- The value of an ASCII digit. -/
def digitVal (c : Char) : Nat := c.toNat - '0'.toNat

/-- A numeric strptime directive whose regex is an ordered alternation of
two-digit alternatives followed by a one-digit one: `two`/`one` mirror the
alternatives.  In every format used, the character following a directive is
never a digit, so committing to a two-digit match is faithful. -/
def dirNum (two : Char → Char → Bool) (one : Char → Bool) :
    List Char → Option (Nat × List Char)
  | c1 :: c2 :: r =>
    if two c1 c2 then some (digitVal c1 * 10 + digitVal c2, r)
    else if one c1 then some (digitVal c1, c2 :: r)
    else none
  | [c1] => if one c1 then some (digitVal c1, []) else none
  | [] => none

/-- `%d`: `(3[01]|[12]\d|0[1-9]|[1-9])`. -/
def dirDay : List Char → Option (Nat × List Char) :=
  dirNum
    (fun a b => (a == '3' && (b == '0' || b == '1')) ||
      ((a == '1' || a == '2') && b.isDigit) ||
      (a == '0' && decide ('1' ≤ b) && decide (b ≤ '9')))
    (fun a => decide ('1' ≤ a) && decide (a ≤ '9'))

/-- `%m` and `%I`: `(1[0-2]|0[1-9]|[1-9])`. -/
def dirOneTo12 : List Char → Option (Nat × List Char) :=
  dirNum
    (fun a b => (a == '1' && decide ('0' ≤ b) && decide (b ≤ '2')) ||
      (a == '0' && decide ('1' ≤ b) && decide (b ≤ '9')))
    (fun a => decide ('1' ≤ a) && decide (a ≤ '9'))

/-- `%H`: `(2[0-3]|[0-1]\d|\d)`. -/
def dirHour24 : List Char → Option (Nat × List Char) :=
  dirNum
    (fun a b => (a == '2' && decide ('0' ≤ b) && decide (b ≤ '3')) ||
      ((a == '0' || a == '1') && b.isDigit))
    Char.isDigit

/-- `%M`: `([0-5]\d|\d)`. -/
def dirMinute : List Char → Option (Nat × List Char) :=
  dirNum (fun a b => decide ('0' ≤ a) && decide (a ≤ '5') && b.isDigit)
    Char.isDigit

/-- `%S`: `(6[0-1]|[0-5]\d|\d)` (strptime admits leap seconds; the datetime
constructor rejects them afterwards). -/
def dirSecond : List Char → Option (Nat × List Char) :=
  dirNum
    (fun a b => (a == '6' && (b == '0' || b == '1')) ||
      (decide ('0' ≤ a) && decide (a ≤ '5') && b.isDigit))
    Char.isDigit

/-- `%Y`: exactly four digits. -/
def dirYear4 : List Char → Option (Nat × List Char)
  | a :: b :: c :: d :: r =>
    if a.isDigit && b.isDigit && c.isDigit && d.isDigit then
      some (((digitVal a * 10 + digitVal b) * 10 + digitVal c) * 10 + digitVal d, r)
    else none
  | _ => none

/-- `%y`: exactly two digits; 0–68 maps to 2000+, 69–99 to 1900+. -/
def dirYear2 : List Char → Option (Nat × List Char)
  | a :: b :: r =>
    if a.isDigit && b.isDigit then
      let y := digitVal a * 10 + digitVal b
      some (if y ≤ 68 then y + 2000 else y + 1900, r)
    else none
  | _ => none

/-- `%p` in the C locale: `AM` or `PM`, case-insensitive (the strptime
pattern is compiled with IGNORECASE); `true` means PM. -/
def dirAmPm : List Char → Option (Bool × List Char)
  | a :: m :: r =>
    if (a == 'A' || a == 'a') && isMchar m then some (false, r)
    else if (a == 'P' || a == 'p') && isMchar m then some (true, r)
    else none
  | _ => none

def isLeapYear (y : Nat) : Bool := y % 4 == 0 && (y % 100 != 0 || y % 400 == 0)

def daysInMonth (y mo : Nat) : Nat :=
  if mo == 2 then (if isLeapYear y then 29 else 28)
  else if mo == 4 || mo == 6 || mo == 9 || mo == 11 then 30
  else 31

/-- The range checks of the `datetime.datetime` constructor (`MINYEAR = 1`,
`MAXYEAR = 9999`, calendar-valid day, second at most 59). -/
def validDateTime (t : DateTime) : Bool :=
  decide (1 ≤ t.year) && decide (t.year ≤ 9999) &&
  decide (1 ≤ t.month) && decide (t.month ≤ 12) &&
  decide (1 ≤ t.day) && decide (t.day ≤ daysInMonth t.year t.month) &&
  decide (t.hour ≤ 23) && decide (t.minute ≤ 59) && decide (t.second ≤ 59)

/-- The shape of one `_DATE_FORMATS` entry: every format is
`DATE1/DATE2/YEAR, HOUR:%M[:%S][ %p]` where the date order, the year width,
the presence of seconds and the hour convention vary. -/
structure FmtSpec where
  dayFirst : Bool
  yearFour : Bool
  withSeconds : Bool
  twelveHour : Bool
  deriving DecidableEq, Repr

/-- `_DATE_FORMATS`, in source order. -/
def dateFormats : List FmtSpec :=
  [⟨true, true, false, false⟩,   -- "%d/%m/%Y, %H:%M"
   ⟨true, true, true, false⟩,    -- "%d/%m/%Y, %H:%M:%S"
   ⟨false, true, false, true⟩,   -- "%m/%d/%Y, %I:%M %p"
   ⟨false, true, true, true⟩,    -- "%m/%d/%Y, %I:%M:%S %p"
   ⟨true, false, false, false⟩,  -- "%d/%m/%y, %H:%M"
   ⟨true, false, true, false⟩,   -- "%d/%m/%y, %H:%M:%S"
   ⟨false, false, false, true⟩,  -- "%m/%d/%y, %I:%M %p"
   ⟨false, false, true, true⟩,   -- "%m/%d/%y, %I:%M:%S %p"
   ⟨true, true, false, true⟩,    -- "%d/%m/%Y, %I:%M %p"
   ⟨true, true, true, true⟩]     -- "%d/%m/%Y, %I:%M:%S %p"

/-- A literal character of a strptime format. -/
def expectChar (c : Char) : List Char → Option (List Char)
  | x :: r => if x == c then some r else none
  | [] => none

/-- `datetime.strptime(input, fmt)` for the format shapes of
`_DATE_FORMATS`: whitespace in a format matches `\s+`, the whole input must
be consumed, the 12-hour value is converted using AM/PM, and the datetime
constructor's range checks apply. -/
def runStrptime (fmt : FmtSpec) (input : List Char) : Option DateTime := do
  let (n1, r1) ← if fmt.dayFirst then dirDay input else dirOneTo12 input
  let r2 ← expectChar '/' r1
  let (n2, r3) ← if fmt.dayFirst then dirOneTo12 r2 else dirDay r2
  let r4 ← expectChar '/' r3
  let (y, r5) ← if fmt.yearFour then dirYear4 r4 else dirYear2 r4
  let r6 ← expectChar ',' r5
  let r7 ← matchWs1 r6
  let (h12, r8) ← if fmt.twelveHour then dirOneTo12 r7 else dirHour24 r7
  let r9 ← expectChar ':' r8
  let (mi, r10) ← dirMinute r9
  let (se, r11) ← if fmt.withSeconds then (expectChar ':' r10).bind dirSecond
                  else some (0, r10)
  let (h, rEnd) ← if fmt.twelveHour then
      (matchWs1 r11).bind fun r12 => (dirAmPm r12).map fun pr =>
        (if pr.1 then (if h12 == 12 then 12 else h12 + 12)
         else (if h12 == 12 then 0 else h12), pr.2)
    else some (h12, r11)
  if rEnd.isEmpty then
    let t : DateTime := ⟨y, if fmt.dayFirst then n2 else n1,
                         if fmt.dayFirst then n1 else n2, h, mi, se⟩
    if validDateTime t then some t else none
  else none

/-- `_parse_timestamp`: try every format, in order, on
`date_str ++ ", " ++ time_str.strip()`; first success wins. -/
def parseTimestamp (dateStr timeStr : List Char) : Option DateTime :=
  let combined := dateStr ++ ',' :: ' ' :: stripChars timeStr
  dateFormats.findSome? fun fmt => runStrptime fmt combined

/-- Does `needle` start `hay`? -/
def listStartsWith : List Char → List Char → Bool
  | [], _ => true
  | _ :: _, [] => false
  | a :: as, b :: bs => a == b && listStartsWith as bs

/-- Python's `in` on strings: `needle` occurs contiguously in `hay`. -/
def containsSub (needle : List Char) : List Char → Bool
  | [] => listStartsWith needle []
  | c :: r => listStartsWith needle (c :: r) || containsSub needle r

/-- `_SYSTEM_INDICATORS`. -/
def systemIndicators : List String :=
  ["messages and calls are end-to-end encrypted",
   "created group",
   "added you",
   "added ",
   "removed ",
   "left",
   "changed the subject",
   "changed this group",
   "changed the group",
   "you were added",
   "security code changed",
   "joined using this group"]

/-- `_MEDIA_INDICATOR`. -/
def mediaIndicator : String := "<media omitted>"

/-- `_is_system_message`: some indicator occurs in the lowered content. -/
def isSystemMessage (content : String) : Bool :=
  systemIndicators.any fun ind => containsSub ind.toList (lowerStr content).toList

/-- `_MEDIA_INDICATOR in content.lower()`. -/
def mediaInContent (content : String) : Bool :=
  containsSub mediaIndicator.toList (lowerStr content).toList

/-- The sender split `re.match(r"^([^:]+?):\s(.*)", rest, re.DOTALL)`: the
lazy `[^:]+?` forces the matched colon to be the first colon of `rest`, at
index at least one, and it must be followed by one whitespace character;
group 1 is the text before that colon, group 2 everything after the
whitespace character. -/
def senderSplit (rest : List Char) : Option (List Char × List Char) :=
  let pre := rest.takeWhile fun c => c != ':'
  if pre.isEmpty then none
  else
    match rest.drop pre.length with
    | ':' :: c :: tail => if isPySpace c then some (pre, tail) else none
    | _ => none

/-- The tail of `_extract_message` once the timestamp has parsed: split the
remainder of the line into sender and content, or fall back to a System
message; the media flag is computed only in the sender branch. -/
def mkFromRest (ts : DateTime) (rest : List Char) : ChatMessage :=
  match senderSplit rest with
  | some (s, c) =>
    let content := String.mk (stripChars c)
    { timestamp := ts, sender := String.mk (stripChars s), content := content,
      is_system := isSystemMessage content, is_media := mediaInContent content }
  | none =>
    { timestamp := ts, sender := "System", content := String.mk (stripChars rest),
      is_system := true, is_media := false }

/-- `_extract_message`: the groups are swapped for the time-first pattern;
a captured timestamp that parses under no format yields `none`. -/
def extractMessage (r : MatchRes) : Option ChatMessage :=
  match parseTimestamp (if r.timeFirst then r.g2 else r.g1)
      (if r.timeFirst then r.g1 else r.g2) with
  | none => none
  | some ts => some (mkFromRest ts r.rest)

/-- `_try_parse_line`: clean the line; an empty cleaned line is no
message; otherwise the first matching pattern (if any) is extracted. -/
def tryParseLine (line : String) : Option ChatMessage :=
  if (cleanLine line).isEmpty then none
  else
    match matchFirst (cleanLine line) with
    | none => none
    | some r => extractMessage r

/-- Python `str.split(sep)` for a one-character separator: split at every
occurrence, keeping empty pieces (`"".split(sep) == [""]`). -/
def splitCharAux (sep : Char) : List Char → List Char → List String
  | [], acc => [String.mk acc.reverse]
  | c :: r, acc =>
    if c == sep then String.mk acc.reverse :: splitCharAux sep r []
    else splitCharAux sep r (c :: acc)

def splitOnChar (sep : Char) (s : String) : List String :=
  splitCharAux sep s.toList []

/-- One iteration of the `parse_text` loop; the state is (finished
messages, in-progress message).  A line that parses closes the in-progress
message; a line that does not parse is appended verbatim to the in-progress
message's content, or discarded when none has started. -/
def parseStep (acc : List ChatMessage × Option ChatMessage) (line : String) :
    List ChatMessage × Option ChatMessage :=
  match tryParseLine line with
  | some parsed =>
    match acc.2 with
    | some cur => (acc.1 ++ [cur], some parsed)
    | none => (acc.1, some parsed)
  | none =>
    match acc.2 with
    | some cur => (acc.1, some { cur with content := cur.content ++ "\n" ++ line })
    | none => acc

/-- `WhatsAppTextParser.parse_text`: fold the loop over the lines and flush
the trailing in-progress message. -/
def parse_text (text : String) : Conversation :=
  match (splitOnChar '\n' text).foldl parseStep ([], none) with
  | (msgs, some cur) => ⟨msgs ++ [cur]⟩
  | (msgs, none) => ⟨msgs⟩

/-! ## Format dispatch (`analyzer/core.py` and the parsers' `can_handle`) -/

/-- `PurePosixPath.name`: the last path component, with empty and `.`
components dropped. -/
def pathName (s : String) : String :=
  ((((splitOnChar '/' s)).filter fun part => part != "" && part != ".").getLast?).getD ""

def lastIdxOf (c : Char) (l : List Char) : Option Nat :=
  match l.reverse.findIdx? (fun x => x == c) with
  | some i => some (l.length - 1 - i)
  | none => none

/-- `PurePosixPath.suffix`: the extension from the last dot of the name,
when that dot is neither the first nor the last character. -/
def pySuffix (s : String) : String :=
  let nm := (pathName s).toList
  match lastIdxOf '.' nm with
  | some i => if 0 < i ∧ i + 1 < nm.length then String.mk (nm.drop i) else ""
  | none => ""

/-- Does one of the four timestamp patterns match at the start of `l`? -/
def anyPatternAt (l : List Char) : Bool :=
  (pat1 l).isSome || (pat2 l).isSome || (pat3 l).isSome || (pat4 l).isSome

/-- `WhatsAppTextParser.can_handle`: an existing `.txt` path, or raw text
whose first 1000 characters (after removing the invisible marks) match a
timestamp pattern.  All patterns are `^`-anchored and `re.search` runs
without MULTILINE, so a search hit is exactly a match at offset 0. -/
def textCanHandle (fileExists : String → Bool) (source : String) : Bool :=
  (pySuffix source == ".txt" && fileExists source) ||
  anyPatternAt (removeJunk (source.toList.take 1000))

/-- `PDFParser.can_handle`. -/
def pdfCanHandle (fileExists : String → Bool) (source : String) : Bool :=
  lowerStr (pySuffix source) == ".pdf" && fileExists source

/-- `DocxParser.can_handle`. -/
def docxCanHandle (fileExists : String → Bool) (source : String) : Bool :=
  lowerStr (pySuffix source) == ".docx" && fileExists source

/-- `_IMAGE_EXTENSIONS`. -/
def imageExtensionList : List String :=
  [".png", ".jpg", ".jpeg", ".webp", ".bmp", ".tiff"]

/-- `ImageParser.can_handle`. -/
def imageCanHandle (fileExists : String → Bool) (source : String) : Bool :=
  imageExtensionList.contains (lowerStr (pySuffix source)) && fileExists source

/-- A registered parser: its `can_handle` predicate and its `parse`. -/
structure ParserModel where
  canHandle : String → Bool
  parse : String → Conversation

/-- The parser list of `ChatAnalyzer.__init__`, in priority order, the text
parser last (broadest match).  The extraction front ends of the PDF, DOCX
and image parsers are external collaborators, taken as parameters, as is
the filesystem (`fileExists`). -/
def analyzerParsers (fileExists : String → Bool)
    (pdfParse docxParse imageParse textParse : String → Conversation) :
    List ParserModel :=
  [⟨pdfCanHandle fileExists, pdfParse⟩,
   ⟨docxCanHandle fileExists, docxParse⟩,
   ⟨imageCanHandle fileExists, imageParse⟩,
   ⟨textCanHandle fileExists, textParse⟩]

/-- The `ValueError` message of `ChatAnalyzer.parse`. -/
def noParserMsg : String :=
  "No parser could handle the input. Supported formats: .txt, .pdf, .docx, .png/.jpg (screenshot)"

/-- `ChatAnalyzer.parse`: the first parser whose `can_handle` accepts the
source parses it; when none accepts, a `ValueError` is raised (modelled as
`Except.error`). -/
def analyzerParse (parsers : List ParserModel) (source : String) :
    Except String Conversation :=
  match parsers.find? (fun pm => pm.canHandle source) with
  | some pm => Except.ok (pm.parse source)
  | none => Except.error noParserMsg

/-- C4: parsing the concrete two-line sample yields exactly two messages:
Alice's, with content "Hey everyone!" and timestamp 2024-01-12 09:01 (the
ambiguous date parsed day-first because "%d/%m/%Y, %H:%M" precedes every
month-first format in `_DATE_FORMATS`), followed by Bob's message with
timestamp 2024-01-12 09:02. -/
theorem parse_sample_two_messages :
    ∃ m1 m2 : ChatMessage,
      (parse_text "12/01/2024, 09:01 - Alice: Hey everyone!\n12/01/2024, 09:02 - Bob: Hi Alice!\n").messages
        = [m1, m2] ∧
      m1.sender = "Alice" ∧ m1.content = "Hey everyone!" ∧
      m1.timestamp = ⟨2024, 1, 12, 9, 1, 0⟩ ∧
      m2.sender = "Bob" ∧ m2.timestamp = ⟨2024, 1, 12, 9, 2, 0⟩ := by
  refine ⟨⟨⟨2024, 1, 12, 9, 1, 0⟩, "Alice", "Hey everyone!", false, false⟩,
    ⟨⟨2024, 1, 12, 9, 2, 0⟩, "Bob", "Hi Alice!\n", false, false⟩,
    ?_, rfl, rfl, rfl, rfl, rfl⟩
  decide

theorem matchD12_suffix : ∀ l m r, matchD12 l = some (m, r) → r <:+ l := by
  intro l m r h
  unfold matchD12 at h
  split at h
  · split at h
    · split at h
      · simp at h
        rename_i c1 c2 rest _ _
        obtain ⟨h1, h2⟩ := h
        subst h2
        exact ⟨[c1, c2], rfl⟩
      · simp at h
        rename_i c1 c2 rest _ _
        obtain ⟨h1, h2⟩ := h
        subst h2
        exact List.suffix_cons c1 _
    · exact absurd h (by simp)
  · split at h
    · simp at h
      obtain ⟨h1, h2⟩ := h
      subst h2
      exact List.nil_suffix
    · exact absurd h (by simp)
  · exact absurd h (by simp)

theorem matchD2_suffix : ∀ l m r, matchD2 l = some (m, r) → r <:+ l := by
  intro l m r h
  unfold matchD2 at h
  split at h
  · split at h
    · simp at h
      rename_i c1 c2 rest _
      obtain ⟨h1, h2⟩ := h
      subst h2
      exact ⟨[c1, c2], rfl⟩
    · simp at h
  · simp at h

theorem matchD24_suffix : ∀ l m r, matchD24 l = some (m, r) → r <:+ l := by
  intro l m r h
  unfold matchD24 at h
  dsimp only at h
  split at h
  · simp at h
    obtain ⟨h1, h2⟩ := h
    subst h2
    exact List.drop_suffix _ _
  · simp at h

theorem matchWs1_suffix : ∀ l r, matchWs1 l = some r → r <:+ l := by
  intro l r h
  unfold matchWs1 at h
  split at h
  · simp at h
  · simp at h
    subst h
    exact List.dropWhile_suffix _

theorem matchTimeCore_suffix : ∀ l m r, matchTimeCore l = some (m, r) → r <:+ l := by
  intro l m r h
  unfold matchTimeCore at h
  split at h
  · simp at h
  · rename_i hh r1 hd
    have hs1 := matchD12_suffix l hh r1 hd
    split at h
    · rename_i r2
      have hs2 : r2 <:+ l := (List.suffix_cons ':' r2).trans hs1
      split at h
      · simp at h
      · rename_i mi r3 hd2
        have hs3 : r3 <:+ l := (matchD2_suffix r2 mi r3 hd2).trans hs2
        split at h
        · rename_i r4
          have hs4 : r4 <:+ l := (List.suffix_cons ':' r4).trans hs3
          split at h
          · rename_i se r5 hd3
            simp at h
            obtain ⟨h1, h2⟩ := h
            subst h2
            exact (matchD2_suffix r4 se r5 hd3).trans hs4
          · simp at h
            obtain ⟨h1, h2⟩ := h
            subst h2
            exact hs3
        · simp at h
          obtain ⟨h1, h2⟩ := h
          subst h2
          exact hs3
    · simp at h

theorem matchAmPmOpt_suffix (l : List Char) : (matchAmPmOpt l).2 <:+ l := by
  unfold matchAmPmOpt
  dsimp only
  split
  · rename_i a m r hdw
    split
    · have h1 : r <:+ a :: m :: r := ⟨[a, m], rfl⟩
      have h2 : a :: m :: r <:+ l := hdw ▸ List.dropWhile_suffix isPySpace
      exact h1.trans h2
    · exact List.suffix_refl l
  · exact List.suffix_refl l

theorem matchAmPmP3_suffix : ∀ l m r, matchAmPmP3 l = some (m, r) → r <:+ l := by
  intro l m r h
  unfold matchAmPmP3 at h
  dsimp only at h
  split at h
  · rename_i a rr hdw
    have hdrop : a :: rr <:+ l := hdw ▸ List.dropWhile_suffix isPySpace
    split at h
    · split at h
      · rename_i m2 r2
        split at h
        · simp at h
          obtain ⟨h1, h2⟩ := h
          subst h2
          exact List.IsSuffix.trans ⟨[a, m2], rfl⟩ hdrop
        · simp at h
          obtain ⟨h1, h2⟩ := h
          subst h2
          exact (List.suffix_cons a _).trans hdrop
      · simp at h
        obtain ⟨h1, h2⟩ := h
        subst h2
        exact List.nil_suffix
    · simp at h
  · simp at h

theorem matchDateCore_suffix : ∀ l m r, matchDateCore l = some (m, r) → r <:+ l := by
  intro l m r h
  unfold matchDateCore at h
  split at h
  · simp at h
  · rename_i d1 r1 hd
    have hs1 := matchD12_suffix l d1 r1 hd
    split at h
    · rename_i r2
      have hs2 : r2 <:+ l := (List.suffix_cons '/' r2).trans hs1
      split at h
      · simp at h
      · rename_i d2 r3 hd2
        have hs3 : r3 <:+ l := (matchD12_suffix r2 d2 r3 hd2).trans hs2
        split at h
        · rename_i r4
          have hs4 : r4 <:+ l := (List.suffix_cons '/' r4).trans hs3
          split at h
          · simp at h
          · rename_i y r5 hd3
            simp at h
            obtain ⟨h1, h2⟩ := h
            subst h2
            exact (matchD24_suffix r4 y r5 hd3).trans hs4
        · simp at h
    · simp at h

theorem pat1_suffix : ∀ l g1 g2 r, pat1 l = some (g1, g2, r) → r <:+ l := by
  intro l g1 g2 r h
  unfold pat1 at h
  split at h
  all_goals try contradiction
  rename_i r0
  split at h
  all_goals try contradiction
  rename_i t r1 ht
  have hs1 := matchTimeCore_suffix r0 t r1 ht
  split at h
  all_goals try contradiction
  rename_i ap r2 hap
  have hs2 : r2 <:+ r0 := by
    have hx := matchAmPmOpt_suffix r1
    rw [hap] at hx
    exact List.IsSuffix.trans hx hs1
  split at h
  all_goals try contradiction
  rename_i r3
  have hs3 : r3 <:+ r0 := (List.suffix_cons ',' r3).trans hs2
  split at h
  all_goals try contradiction
  rename_i r4 hw
  have hs4 : r4 <:+ r0 := (matchWs1_suffix r3 r4 hw).trans hs3
  split at h
  all_goals try contradiction
  rename_i d r5 hd
  have hs5 : r5 <:+ r0 := (matchDateCore_suffix r4 d r5 hd).trans hs4
  split at h
  all_goals try contradiction
  rename_i r6
  have hs6 : r6 <:+ r0 := (List.suffix_cons ']' r6).trans hs5
  split at h
  all_goals try contradiction
  rename_i r7 hw2
  simp at h
  obtain ⟨ha, hb, hc⟩ := h
  subst hc
  exact ((matchWs1_suffix r6 r7 hw2).trans hs6).trans (List.suffix_cons '[' r0)

theorem pat2_suffix : ∀ l g1 g2 r, pat2 l = some (g1, g2, r) → r <:+ l := by
  intro l g1 g2 r h
  unfold pat2 at h
  split at h
  all_goals try contradiction
  rename_i r0
  split at h
  all_goals try contradiction
  rename_i d r1 hd
  have hs1 := matchDateCore_suffix r0 d r1 hd
  split at h
  all_goals try contradiction
  rename_i r2
  have hs2 : r2 <:+ r0 := (List.suffix_cons ',' r2).trans hs1
  split at h
  all_goals try contradiction
  rename_i r3 hw
  have hs3 : r3 <:+ r0 := (matchWs1_suffix r2 r3 hw).trans hs2
  split at h
  all_goals try contradiction
  rename_i t r4 ht
  have hs4 : r4 <:+ r0 := (matchTimeCore_suffix r3 t r4 ht).trans hs3
  split at h
  all_goals try contradiction
  rename_i ap r5 hap
  have hs5 : r5 <:+ r0 := by
    have hx := matchAmPmOpt_suffix r4
    rw [hap] at hx
    exact List.IsSuffix.trans hx hs4
  split at h
  all_goals try contradiction
  rename_i r6
  have hs6 : r6 <:+ r0 := (List.suffix_cons ']' r6).trans hs5
  split at h
  all_goals try contradiction
  rename_i r7 hw2
  simp at h
  obtain ⟨ha, hb, hc⟩ := h
  subst hc
  exact ((matchWs1_suffix r6 r7 hw2).trans hs6).trans (List.suffix_cons '[' r0)

theorem pat3_suffix : ∀ l g1 g2 r, pat3 l = some (g1, g2, r) → r <:+ l := by
  intro l g1 g2 r h
  unfold pat3 at h
  split at h
  all_goals try contradiction
  rename_i d r1 hd
  have hs1 := matchDateCore_suffix l d r1 hd
  split at h
  all_goals try contradiction
  rename_i r2
  have hs2 : r2 <:+ l := (List.suffix_cons ',' r2).trans hs1
  split at h
  all_goals try contradiction
  rename_i r3 hw
  have hs3 : r3 <:+ l := (matchWs1_suffix r2 r3 hw).trans hs2
  split at h
  all_goals try contradiction
  rename_i t r4 ht
  have hs4 : r4 <:+ l := (matchTimeCore_suffix r3 t r4 ht).trans hs3
  split at h
  all_goals try contradiction
  rename_i ap r5 hap
  have hs5 : r5 <:+ l := (matchAmPmP3_suffix r4 ap r5 hap).trans hs4
  split at h
  all_goals try contradiction
  rename_i r6 hw2
  have hs6 : r6 <:+ l := (matchWs1_suffix r5 r6 hw2).trans hs5
  split at h
  all_goals try contradiction
  rename_i c r7
  have hs7 : r7 <:+ l := (List.suffix_cons c r7).trans hs6
  split at h
  all_goals try contradiction
  split at h
  all_goals try contradiction
  rename_i r8 hw3
  simp at h
  obtain ⟨ha, hb, hc⟩ := h
  subst hc
  exact (matchWs1_suffix r7 r8 hw3).trans hs7

theorem pat4_suffix : ∀ l g1 g2 r, pat4 l = some (g1, g2, r) → r <:+ l := by
  intro l g1 g2 r h
  unfold pat4 at h
  split at h
  all_goals try contradiction
  rename_i d r1 hd
  have hs1 := matchDateCore_suffix l d r1 hd
  split at h
  all_goals try contradiction
  rename_i r2
  have hs2 : r2 <:+ l := (List.suffix_cons ',' r2).trans hs1
  split at h
  all_goals try contradiction
  rename_i r3 hw
  have hs3 : r3 <:+ l := (matchWs1_suffix r2 r3 hw).trans hs2
  split at h
  all_goals try contradiction
  rename_i t r4 ht
  have hs4 : r4 <:+ l := (matchTimeCore_suffix r3 t r4 ht).trans hs3
  split at h
  all_goals try contradiction
  rename_i r5 hw2
  have hs5 : r5 <:+ l := (matchWs1_suffix r4 r5 hw2).trans hs4
  split at h
  all_goals try contradiction
  rename_i c r6
  have hs6 : r6 <:+ l := (List.suffix_cons c r6).trans hs5
  split at h
  all_goals try contradiction
  split at h
  all_goals try contradiction
  rename_i r7 hw3
  simp at h
  obtain ⟨ha, hb, hc⟩ := h
  subst hc
  exact (matchWs1_suffix r6 r7 hw3).trans hs6

theorem matchFirst_rest_suffix : ∀ l r, matchFirst l = some r → r.rest <:+ l := by
  intro l r h
  unfold matchFirst at h
  split at h
  · rename_i a b rr h1
    simp at h
    subst h
    exact pat1_suffix l a b rr h1
  · split at h
    · rename_i a b rr h2
      simp at h
      subst h
      exact pat2_suffix l a b rr h2
    · split at h
      · rename_i a b rr h3
        simp at h
        subst h
        exact pat3_suffix l a b rr h3
      · split at h
        · rename_i a b rr h4
          simp at h
          subst h
          exact pat4_suffix l a b rr h4
        · simp at h

theorem mem_stripChars (l : List Char) (x : Char) (h : x ∈ stripChars l) : x ∈ l := by
  unfold stripChars at h
  rw [List.mem_reverse] at h
  have h2 := (List.dropWhile_suffix isPySpace).subset h
  rw [List.mem_reverse] at h2
  exact (List.dropWhile_suffix isPySpace).subset h2

theorem head_dropWhile_false (p : Char → Bool) :
    ∀ (l : List Char) (c : Char), (l.dropWhile p).head? = some c → p c = false := by
  intro l
  induction l with
  | nil => intro c h; simp at h
  | cons a r ih =>
    intro c h
    rw [List.dropWhile_cons] at h
    by_cases ha : p a = true
    · rw [if_pos ha] at h
      exact ih c h
    · rw [if_neg ha] at h
      simp at h
      subst h
      exact Bool.eq_false_iff.mpr ha

theorem stripChars_head (l : List Char) (c : Char)
    (h : (stripChars l).head? = some c) : isPySpace c = false := by
  unfold stripChars at h
  have hsplit := List.takeWhile_append_dropWhile (p := isPySpace)
    (l := (l.dropWhile isPySpace).reverse)
  have hw2 : l.dropWhile isPySpace
      = ((l.dropWhile isPySpace).reverse.dropWhile isPySpace).reverse
        ++ ((l.dropWhile isPySpace).reverse.takeWhile isPySpace).reverse := by
    rw [← List.reverse_append, hsplit, List.reverse_reverse]
  cases hy : ((l.dropWhile isPySpace).reverse.dropWhile isPySpace).reverse with
  | nil => rw [hy] at h; simp at h
  | cons a z =>
    rw [hy] at h
    simp at h
    subst h
    rw [hy] at hw2
    have hhead : (l.dropWhile isPySpace).head? = some a := by
      rw [hw2]
      simp
    exact head_dropWhile_false isPySpace l a hhead

theorem stripChars_getLast (l : List Char) (c : Char)
    (h : (stripChars l).getLast? = some c) : isPySpace c = false := by
  unfold stripChars at h
  rw [List.getLast?_reverse] at h
  exact head_dropWhile_false isPySpace _ c h

theorem senderSplit_subset (rest s c : List Char) (h : senderSplit rest = some (s, c)) :
    (∀ x ∈ s, x ∈ rest) ∧ (∀ x ∈ c, x ∈ rest) := by
  unfold senderSplit at h
  dsimp only at h
  split at h
  · simp at h
  · split at h
    · rename_i c0 tail hdrop
      split at h
      · simp at h
        obtain ⟨h1, h2⟩ := h
        subst h1
        subst h2
        constructor
        · intro x hx
          exact (List.takeWhile_sublist _).subset hx
        · intro x hx
          have hx2 : x ∈ rest.drop (rest.takeWhile (fun ch => ch != ':')).length := by
            rw [hdrop]
            simp [hx]
          exact (List.drop_suffix _ _).subset hx2
      · simp at h
    · simp at h

theorem tryParseLine_eq (line : String) (m : ChatMessage)
    (h : tryParseLine line = some m) :
    ∃ (r : MatchRes) (ts : DateTime),
      matchFirst (cleanLine line) = some r ∧
      parseTimestamp (if r.timeFirst then r.g2 else r.g1)
        (if r.timeFirst then r.g1 else r.g2) = some ts ∧
      m = mkFromRest ts r.rest := by
  unfold tryParseLine at h
  split at h
  · simp at h
  · split at h
    · simp at h
    · rename_i r hm
      unfold extractMessage at h
      split at h
      · simp at h
      · rename_i ts hts
        simp at h
        exact ⟨r, ts, hm, hts, h.symm⟩

theorem mkFromRest_timestamp (ts : DateTime) (rest : List Char) :
    (mkFromRest ts rest).timestamp = ts := by
  unfold mkFromRest
  split <;> rfl

theorem tryParseLine_timestamp (line : String) (m : ChatMessage)
    (h : tryParseLine line = some m) :
    ∃ d t, parseTimestamp d t = some m.timestamp := by
  obtain ⟨r, ts, hm, hts, hmk⟩ := tryParseLine_eq line m h
  subst hmk
  rw [mkFromRest_timestamp]
  exact ⟨_, _, hts⟩

theorem cleanLine_junk_free (line : String) :
    ∀ x ∈ cleanLine line, isJunkChar x = false := by
  intro x hx
  unfold cleanLine at hx
  have hx2 := mem_stripChars _ x hx
  unfold removeJunk at hx2
  rw [List.mem_filter] at hx2
  simpa using hx2.2

theorem mkFromRest_content (ts : DateTime) (rest : List Char)
    (hrest : ∀ x ∈ rest, isJunkChar x = false) :
    (∀ x ∈ (mkFromRest ts rest).content.toList, isJunkChar x = false) ∧
    (∀ x, (mkFromRest ts rest).content.toList.head? = some x → isPySpace x = false) ∧
    (∀ x, (mkFromRest ts rest).content.toList.getLast? = some x → isPySpace x = false) := by
  unfold mkFromRest
  split
  · rename_i s c hsp
    refine ⟨?_, ?_, ?_⟩
    · intro x hx
      have hx2 : x ∈ stripChars c := hx
      exact hrest x ((senderSplit_subset rest s c hsp).2 x (mem_stripChars c x hx2))
    · intro x hx
      exact stripChars_head c x hx
    · intro x hx
      exact stripChars_getLast c x hx
  · refine ⟨?_, ?_, ?_⟩
    · intro x hx
      exact hrest x (mem_stripChars rest x hx)
    · intro x hx
      exact stripChars_head rest x hx
    · intro x hx
      exact stripChars_getLast rest x hx

theorem tryParseLine_content (line : String) (m : ChatMessage)
    (h : tryParseLine line = some m) :
    (∀ x ∈ m.content.toList, isJunkChar x = false) ∧
    (∀ x, m.content.toList.head? = some x → isPySpace x = false) ∧
    (∀ x, m.content.toList.getLast? = some x → isPySpace x = false) := by
  obtain ⟨r, ts, hm, hts, hmk⟩ := tryParseLine_eq line m h
  subst hmk
  apply mkFromRest_content
  intro x hx
  exact cleanLine_junk_free line x ((matchFirst_rest_suffix _ r hm).subset hx)

theorem mkFromRest_media (ts : DateTime) (rest : List Char) :
    ((mkFromRest ts rest).is_media = true →
      mediaInContent (mkFromRest ts rest).content = true) ∧
    ((mkFromRest ts rest).is_system = false →
      (mkFromRest ts rest).is_media = mediaInContent (mkFromRest ts rest).content) := by
  unfold mkFromRest
  split
  · exact ⟨fun h => h, fun _ => rfl⟩
  · constructor
    · intro h
      simp at h
    · intro h
      simp at h

theorem listStartsWith_append (n : List Char) :
    ∀ h e, listStartsWith n h = true → listStartsWith n (h ++ e) = true := by
  induction n with
  | nil => intro h e _; rfl
  | cons a as ih =>
    intro h e hsw
    cases h with
    | nil => simp [listStartsWith] at hsw
    | cons b bs =>
      rw [List.cons_append]
      unfold listStartsWith at hsw ⊢
      rw [Bool.and_eq_true] at hsw ⊢
      exact ⟨hsw.1, ih bs e hsw.2⟩

theorem containsSub_nil_needle : ∀ l, containsSub [] l = true := by
  intro l
  cases l <;> simp [containsSub, listStartsWith]

theorem containsSub_append (n : List Char) :
    ∀ h e, containsSub n h = true → containsSub n (h ++ e) = true := by
  intro h
  induction h with
  | nil =>
    intro e hc
    unfold containsSub at hc
    cases n with
    | nil => exact containsSub_nil_needle e
    | cons a as => simp [listStartsWith] at hc
  | cons c r ih =>
    intro e hc
    unfold containsSub at hc
    rw [Bool.or_eq_true] at hc
    rw [List.cons_append]
    unfold containsSub
    rw [Bool.or_eq_true]
    rcases hc with hc | hc
    · exact Or.inl (listStartsWith_append n (c :: r) e hc)
    · exact Or.inr (ih e hc)

theorem lowerStr_toList_append (a b : String) :
    (lowerStr (a ++ b)).toList = (lowerStr a).toList ++ (lowerStr b).toList := by
  show List.map Char.toLower (a ++ b).data
      = List.map Char.toLower a.data ++ List.map Char.toLower b.data
  rw [String.data_append, List.map_append]

theorem mediaInContent_append (a b : String) (h : mediaInContent a = true) :
    mediaInContent (a ++ b) = true := by
  unfold mediaInContent at h ⊢
  rw [lowerStr_toList_append]
  exact containsSub_append _ _ _ h

theorem parseStep_preserves (P : ChatMessage → Prop)
    (hnew : ∀ line m, tryParseLine line = some m → P m)
    (hcont : ∀ m line, P m → P { m with content := m.content ++ "\n" ++ line }) :
    ∀ (lines : List String) (acc : List ChatMessage × Option ChatMessage),
      (∀ m ∈ acc.1, P m) → (∀ m, acc.2 = some m → P m) →
      (∀ m ∈ (lines.foldl parseStep acc).1, P m) ∧
      (∀ m, (lines.foldl parseStep acc).2 = some m → P m) := by
  intro lines
  induction lines with
  | nil =>
    intro acc h1 h2
    exact ⟨h1, h2⟩
  | cons line rest ih =>
    intro acc h1 h2
    rw [List.foldl_cons]
    apply ih
    · intro m hm
      unfold parseStep at hm
      split at hm
      · rename_i parsed hparse
        split at hm
        · rename_i cur hcur
          simp at hm
          rcases hm with hm | hm
          · exact h1 m hm
          · subst hm
            exact h2 m hcur
        · exact h1 m hm
      · split at hm
        · exact h1 m hm
        · exact h1 m hm
    · intro m hm
      unfold parseStep at hm
      split at hm
      · rename_i parsed hparse
        split at hm
        · simp at hm
          subst hm
          exact hnew line parsed hparse
        · simp at hm
          subst hm
          exact hnew line parsed hparse
      · rename_i hparse
        split at hm
        · rename_i cur hcur
          simp at hm
          subst hm
          exact hcont cur line (h2 cur hcur)
        · exact h2 m hm

theorem parse_text_all (P : ChatMessage → Prop)
    (hnew : ∀ line m, tryParseLine line = some m → P m)
    (hcont : ∀ m line, P m → P { m with content := m.content ++ "\n" ++ line })
    (text : String) : ∀ m ∈ (parse_text text).messages, P m := by
  unfold parse_text
  have h := parseStep_preserves P hnew hcont (splitOnChar '\n' text) ([], none)
    (by intro m hm; simp at hm) (by intro m hm; simp at hm)
  split
  · rename_i msgs cur heq
    intro m hm
    rw [heq] at h
    simp at hm
    rcases hm with hm | hm
    · exact h.1 m hm
    · subst hm
      exact h.2 m rfl
  · rename_i msgs heq
    intro m hm
    rw [heq] at h
    exact h.1 m hm

/-- C3: every message produced by `parse_text` carries a timestamp obtained
from a successful `_parse_timestamp` parse under the fixed ordered format
list; a line whose prefix matches a timestamp pattern but whose captured
date/time text fails all formats never becomes a message — `_try_parse_line`
yields `none` (a total function, no error is raised) — and a non-parsing
line is appended as a continuation of the in-progress message, or discarded
when no message has started yet. -/
theorem parser_timestamp_invariant :
    (∀ text : String, ∀ m ∈ (parse_text text).messages,
      ∃ d t, parseTimestamp d t = some m.timestamp) ∧
    (∀ (line : String) (r : MatchRes), matchFirst (cleanLine line) = some r →
      parseTimestamp (if r.timeFirst then r.g2 else r.g1)
        (if r.timeFirst then r.g1 else r.g2) = none →
      tryParseLine line = none) ∧
    (∀ (msgs : List ChatMessage) (cur : ChatMessage) (line : String),
      tryParseLine line = none →
      parseStep (msgs, some cur) line
        = (msgs, some { cur with content := cur.content ++ "\n" ++ line }) ∧
      parseStep (msgs, none) line = (msgs, none)) := by
  refine ⟨?_, ?_, ?_⟩
  · intro text
    exact parse_text_all _ tryParseLine_timestamp (fun m line hp => hp) text
  · intro line r hm hnone
    unfold tryParseLine
    split
    · rfl
    · rw [hm]
      show extractMessage r = none
      unfold extractMessage
      rw [hnone]
  · intro msgs cur line hnone
    constructor
    · simp [parseStep, hnone]
    · simp [parseStep, hnone]

/-- Witness for C3: a line that matches pattern 4 (as a concrete
`MatchRes`) but whose date (February 31st) parses under no format is not a
message. -/
theorem parser_timestamp_invariant_witness :
    tryParseLine "31/02/2024, 09:01 - A: b" = none :=
  parser_timestamp_invariant.2.1 "31/02/2024, 09:01 - A: b"
    ⟨['3', '1', '/', '0', '2', '/', '2', '0', '2', '4'],
     ['0', '9', ':', '0', '1'], ['A', ':', ' ', 'b'], false⟩
    (by decide) (by decide)

/-- C5 as stated is false on the code: a continuation line is appended to
the in-progress message verbatim — neither cleaned of the invisible marks
nor trimmed.  Parsing a two-line input whose continuation line starts with
a left-to-right mark yields a message whose content contains that mark. -/
theorem content_clean_counterexample :
    ((parse_text "12/01/2024, 09:01 - Alice: Hi\n\u200Ex").messages.map
      (fun m => m.content.toList.any isJunkChar)) = [true] := by
  decide

/-- C5 amended: content assembled at a message-start line is free of the
stripped invisible characters and trimmed (no leading or trailing
whitespace); continuation lines, however, are appended verbatim with a
newline separator — uncleaned and untrimmed. -/
theorem content_clean_at_creation :
    (∀ (line : String) (m : ChatMessage), tryParseLine line = some m →
      (∀ x ∈ m.content.toList, isJunkChar x = false) ∧
      (∀ x, m.content.toList.head? = some x → isPySpace x = false) ∧
      (∀ x, m.content.toList.getLast? = some x → isPySpace x = false)) ∧
    (∀ (msgs : List ChatMessage) (cur : ChatMessage) (line : String),
      tryParseLine line = none →
      parseStep (msgs, some cur) line
        = (msgs, some { cur with content := cur.content ++ "\n" ++ line })) :=
  ⟨tryParseLine_content, fun msgs cur line h => by simp [parseStep, h]⟩

/-- Witness for C5 (amended): the continuation clause at a concrete state. -/
theorem content_clean_at_creation_witness :
    parseStep ([], some (ChatMessage.mk ⟨2024, 1, 12, 9, 1, 0⟩ "Alice" "Hi" false false)) "x"
      = ([], some (ChatMessage.mk ⟨2024, 1, 12, 9, 1, 0⟩ "Alice" ("Hi" ++ "\n" ++ "x") false false)) :=
  content_clean_at_creation.2 []
    (ChatMessage.mk ⟨2024, 1, 12, 9, 1, 0⟩ "Alice" "Hi" false false) "x" (by decide)

/-- C6 as stated is false on the code: a line with no `": "` sender
delimiter takes the System branch, which sets `is_media := False`
unconditionally — here the content does contain the media marker
(case-insensitively) yet `is_media` is false. -/
theorem media_flag_counterexample :
    ((parse_text "12/01/2024, 09:01 - <Media omitted>").messages.map
      (fun m => (m.is_media, mediaInContent m.content))) = [(false, true)] := by
  decide

/-- C6 amended: `is_media` implies the content contains the media marker
case-insensitively; for every message created from a line with a `": "`
sender delimiter (a successful `senderSplit`, regardless of how
`is_system` was classified — in particular whenever `is_system` is false),
`is_media` equals the case-insensitive containment check on its initial
content; a System-branch message (no sender delimiter) always has
`is_media = false` and `is_system = true`, even when its content contains
the marker; and continuation lines appended later never update
`is_media`. -/
theorem media_flag_spec :
    (∀ text : String, ∀ m ∈ (parse_text text).messages,
      m.is_media = true → mediaInContent m.content = true) ∧
    (∀ (ts : DateTime) (rest s c : List Char), senderSplit rest = some (s, c) →
      (mkFromRest ts rest).is_media = mediaInContent (mkFromRest ts rest).content) ∧
    (∀ (ts : DateTime) (rest : List Char), senderSplit rest = none →
      (mkFromRest ts rest).is_media = false ∧ (mkFromRest ts rest).is_system = true) ∧
    (∀ (line : String) (m : ChatMessage), tryParseLine line = some m →
      m.is_system = false → m.is_media = mediaInContent m.content) ∧
    (∀ (msgs : List ChatMessage) (cur : ChatMessage) (line : String),
      tryParseLine line = none →
      ((parseStep (msgs, some cur) line).2.map fun m => m.is_media)
        = some cur.is_media) := by
  refine ⟨?_, ?_, ?_, ?_, ?_⟩
  · intro text
    apply parse_text_all (fun m => m.is_media = true → mediaInContent m.content = true)
    · intro line m h
      obtain ⟨r, ts, hm, hts, hmk⟩ := tryParseLine_eq line m h
      subst hmk
      exact (mkFromRest_media ts r.rest).1
    · intro m line hp hmedia
      exact mediaInContent_append _ line (mediaInContent_append m.content "\n" (hp hmedia))
  · intro ts rest s c h
    unfold mkFromRest
    rw [h]
  · intro ts rest h
    unfold mkFromRest
    rw [h]
    exact ⟨rfl, rfl⟩
  · intro line m h hsys
    obtain ⟨r, ts, hm, hts, hmk⟩ := tryParseLine_eq line m h
    subst hmk
    exact (mkFromRest_media ts r.rest).2 hsys
  · intro msgs cur line hnone
    simp [parseStep, hnone]

/-- Witness for C6 (amended) at a concrete parsed conversation. -/
theorem media_flag_spec_witness : mediaInContent "<Media omitted>" = true :=
  media_flag_spec.1 "12/01/2024, 09:05 - Charlie: <Media omitted>"
    (ChatMessage.mk ⟨2024, 1, 12, 9, 5, 0⟩ "Charlie" "<Media omitted>" false true)
    (by decide) (by decide)

/-- C9: when no timestamp pattern matches anywhere in the (junk-stripped)
first 1000 characters of the source, and the source is not an existing file
path with a handled extension (`.txt` checked case-sensitively, `.pdf`,
`.docx` and the image extensions case-insensitively), every registered
parser's `can_handle` returns false and `ChatAnalyzer.parse` raises the
unrecognized-input `ValueError` instead of returning a Conversation. -/
theorem no_parser_match_error (fileExists : String → Bool)
    (pdfParse docxParse imageParse textParse : String → Conversation)
    (source : String)
    (h1 : (removeJunk (source.toList.take 1000)).tails.all
      (fun t => !anyPatternAt t) = true)
    (h2 : fileExists source = false ∨
      (pySuffix source ≠ ".txt" ∧ lowerStr (pySuffix source) ≠ ".pdf" ∧
       lowerStr (pySuffix source) ≠ ".docx" ∧
       imageExtensionList.contains (lowerStr (pySuffix source)) = false)) :
    (∀ pm ∈ analyzerParsers fileExists pdfParse docxParse imageParse textParse,
      pm.canHandle source = false) ∧
    analyzerParse (analyzerParsers fileExists pdfParse docxParse imageParse textParse)
      source = Except.error noParserMsg := by
  have hpat : anyPatternAt (removeJunk (source.toList.take 1000)) = false := by
    rw [List.all_eq_true] at h1
    have hx := h1 _ ((List.mem_tails _ _).mpr (List.suffix_refl _))
    simpa using hx
  have hall : ∀ pm ∈ analyzerParsers fileExists pdfParse docxParse imageParse textParse,
      pm.canHandle source = false := by
    intro pm hpm
    have hpat2 : anyPatternAt (removeJunk (List.take 1000 source.data)) = false := hpat
    simp only [analyzerParsers, List.mem_cons, List.not_mem_nil, or_false] at hpm
    rcases h2 with h2 | ⟨htxt, hpdf, hdocx, himg⟩
    · rcases hpm with h | h | h | h <;> subst h <;>
        simp [pdfCanHandle, docxCanHandle, imageCanHandle, textCanHandle, h2, hpat2]
    · have himg2 : lowerStr (pySuffix source) ∉ imageExtensionList := by
        simpa using himg
      rcases hpm with h | h | h | h <;> subst h <;>
        simp [pdfCanHandle, docxCanHandle, imageCanHandle, textCanHandle,
          htxt, hpdf, hdocx, himg2, hpat2]
  refine ⟨hall, ?_⟩
  have hfind : (analyzerParsers fileExists pdfParse docxParse imageParse textParse).find?
      (fun pm => pm.canHandle source) = none := by
    rw [List.find?_eq_none]
    intro pm hpm
    simp [hall pm hpm]
  unfold analyzerParse
  rw [hfind]

/-- Witness for C9 at the concrete source "just some random text" with an
empty filesystem. -/
theorem no_parser_match_error_witness :
    analyzerParse (analyzerParsers (fun _ => false) (fun _ => ⟨[]⟩) (fun _ => ⟨[]⟩)
      (fun _ => ⟨[]⟩) (fun _ => ⟨[]⟩)) "just some random text"
      = Except.error noParserMsg :=
  (no_parser_match_error (fun _ => false) (fun _ => ⟨[]⟩) (fun _ => ⟨[]⟩)
    (fun _ => ⟨[]⟩) (fun _ => ⟨[]⟩) "just some random text"
    (by decide) (Or.inl rfl)).2
